import Mathlib

/-!
Verification of the ns-mcp-server tool-dispatch and validation layer.

The repository's stable core consists of the seven-tool dispatcher
(`setupToolHandlers` in the evolved index draft), the upstream client
(`NSApiService.ts`), the response formatter (`ResponseFormatter.ts`) and the
per-tool argument validators (the evolved `types.ts` draft).  An earlier
single-file draft (`src/index.ts`) carries its own two-tool dispatcher with
argument shaping; it is modelled separately where a claim refers to it.

JavaScript values are embedded as `JValue`; machine numbers are modelled as
`Int` (the layer performs no arithmetic beyond integral range checks), and
JavaScript property access, `typeof`, truthiness and `??`/`||` are modelled
explicitly.  Property access on `null`/`undefined` throws in JavaScript, so
it is embedded as `Except`; all other validator code is total.
-/

namespace NS

/-- Embedding of a JavaScript runtime value as delivered by the MCP
transport: JSON data plus `undefined` (absent fields). Numbers are modelled
as integers. -/
inductive JValue where
  | vundefined : JValue
  | vnull : JValue
  | vbool : Bool → JValue
  | vnum : Int → JValue
  | vstr : String → JValue
  | varr : List JValue → JValue
  | vobj : List (String × JValue) → JValue
deriving Repr

mutual

/-- Boolean equality on embedded JS values (structural). -/
def beqJ : JValue → JValue → Bool
  | .vundefined, .vundefined => true
  | .vnull, .vnull => true
  | .vbool a, .vbool b => a == b
  | .vnum a, .vnum b => a == b
  | .vstr a, .vstr b => a == b
  | .varr a, .varr b => beqL a b
  | .vobj a, .vobj b => beqF a b
  | _, _ => false

def beqL : List JValue → List JValue → Bool
  | [], [] => true
  | x :: xs, y :: ys => beqJ x y && beqL xs ys
  | _, _ => false

def beqF : List (String × JValue) → List (String × JValue) → Bool
  | [], [] => true
  | (k, v) :: fs, (k2, v2) :: fs2 => k == k2 && beqJ v v2 && beqF fs fs2
  | _, _ => false

end

instance : BEq JValue := ⟨beqJ⟩

/-- JavaScript `typeof`.  Note `typeof null` is `"object"`, and arrays are
also `"object"`. -/
def jsTypeof : JValue → String
  | .vundefined => "undefined"
  | .vnull => "object"
  | .vbool _ => "boolean"
  | .vnum _ => "number"
  | .vstr _ => "string"
  | .varr _ => "object"
  | .vobj _ => "object"

/-- JavaScript truthiness (`!!v`).  `undefined`, `null`, `false`, `0` and
`""` are falsy; every object and array is truthy. -/
def jsTruthy : JValue → Bool
  | .vundefined => false
  | .vnull => false
  | .vbool b => b
  | .vnum n => n != 0
  | .vstr s => s != ""
  | .varr _ => true
  | .vobj _ => true

/-- Named property access on a value that is known not to be
`null`/`undefined`: objects yield the stored field (first binding wins,
as in a JS object literal read), everything else yields `undefined`. -/
def getField : JValue → String → JValue
  | .vobj fs, k => (fs.lookup k).getD .vundefined
  | _, _ => .vundefined

/-- Named property access on an arbitrary value.  In JavaScript, reading a
property of `null` or `undefined` throws a `TypeError`; that is the only
failing case. -/
def getFieldE : JValue → String → Except Unit JValue
  | .vnull, _ => .error ()
  | .vundefined, _ => .error ()
  | v, k => .ok (getField v k)

/-- The nullish-coalescing operator `a ?? b`. -/
def nullish (v d : JValue) : JValue :=
  match v with
  | .vundefined => d
  | .vnull => d
  | _ => v

/-! ## Argument validators (evolved `types.ts` draft) -/

/-- `isValidDisruptionsArgs` (types.ts): the guard for `get_disruptions`. -/
def isValidDisruptionsArgs (args : JValue) : Bool :=
  if !jsTruthy args || jsTypeof args != "object" then false
  else
    let ia := getField args "isActive"
    if ia != .vundefined && jsTypeof ia != "boolean" then false
    else
      let t := getField args "type"
      if t != .vundefined &&
          (jsTypeof t != "string" ||
            !(match t with
              | .vstr s => ["MAINTENANCE", "DISRUPTION"].contains s
              | _ => false)) then false
      else true

/-- `isValidTravelAdviceArgs` (types.ts): the guard for `get_travel_advice`. -/
def isValidTravelAdviceArgs (args : JValue) : Bool :=
  if !jsTruthy args || jsTypeof args != "object" then false
  else
    if jsTypeof (getField args "fromStation") != "string" ||
        jsTypeof (getField args "toStation") != "string" then false
    else
      if getField args "dateTime" != .vundefined &&
          jsTypeof (getField args "dateTime") != "string" then false
      else
        if getField args "searchForArrival" != .vundefined &&
            jsTypeof (getField args "searchForArrival") != "boolean" then false
        else true

/-- `isValidDeparturesArgs` (types.ts): the guard for `get_departures`.
It requires `station` to be a string and never inspects `uicCode`; the
optional `maxJourneys` is only checked to be a number. -/
def isValidDeparturesArgs (args : JValue) : Bool :=
  if !jsTruthy args || jsTypeof args != "object" then false
  else
    if jsTypeof (getField args "station") != "string" then false
    else
      if getField args "dateTime" != .vundefined &&
          jsTypeof (getField args "dateTime") != "string" then false
      else
        if getField args "maxJourneys" != .vundefined &&
            jsTypeof (getField args "maxJourneys") != "number" then false
        else
          if getField args "lang" != .vundefined &&
              jsTypeof (getField args "lang") != "string" then false
          else true

/-- `isValidOVFietsArgs` (types.ts): the guard for `get_ovfiets`. -/
def isValidOVFietsArgs (args : JValue) : Bool :=
  if !jsTruthy args || jsTypeof args != "object" then false
  else jsTypeof (getField args "stationCode") == "string"

/-- `isValidStationInfoArgs` (types.ts): the guard for `get_station_info`.
The source tests `typeof args === 'object'` but never excludes `null`
(`typeof null` is `"object"`), so the subsequent `args.query` access throws
a `TypeError` on `null`; this is embedded as the `Except.error` case. -/
def isValidStationInfoArgs (args : JValue) : Except Unit Bool :=
  if jsTypeof args != "object" then .ok false
  else do
    let q ← getFieldE args "query"
    let inps ← getFieldE args "includeNonPlannableStations"
    let lim ← getFieldE args "limit"
    .ok (jsTypeof q == "string"
      && (inps == .vundefined || jsTypeof inps == "boolean")
      && (lim == .vundefined ||
          (jsTypeof lim == "number" &&
            (match lim with
             | .vnum n => 1 ≤ n && n ≤ 50
             | _ => false))))

/-- `isValidArrivalsArgs` (types.ts): the guard for `get_arrivals`.  The
either-or rule is a truthiness test `!args.station && !args.uicCode`, and
`maxJourneys` is range-checked against 1..100. -/
def isValidArrivalsArgs (args : JValue) : Bool :=
  if !jsTruthy args || jsTypeof args != "object" then false
  else
    if !jsTruthy (getField args "station") && !jsTruthy (getField args "uicCode") then false
    else
      if getField args "station" != .vundefined &&
          jsTypeof (getField args "station") != "string" then false
      else
        if getField args "uicCode" != .vundefined &&
            jsTypeof (getField args "uicCode") != "string" then false
        else
          if getField args "dateTime" != .vundefined &&
              jsTypeof (getField args "dateTime") != "string" then false
          else
            if getField args "maxJourneys" != .vundefined &&
                !(jsTypeof (getField args "maxJourneys") == "number" &&
                  (match getField args "maxJourneys" with
                   | .vnum n => 1 ≤ n && n ≤ 100
                   | _ => false)) then false
            else
              if getField args "lang" != .vundefined &&
                  !(jsTypeof (getField args "lang") == "string" &&
                    (match getField args "lang" with
                     | .vstr s => ["nl", "en"].contains s
                     | _ => false)) then false
              else true

/-! ## JSON serialization (`JSON.stringify(data, null, 2)`)

`ResponseFormatter.formatSuccess` pretty-prints its payload with a two-space
indent.  The serializer below reproduces that output character by character:
two-space indentation growing with nesting, `", "`-free newline-separated
items, `": "` after object keys, JSON string escaping (`\"`, `\\`, the short
escapes `\b \t \n \f \r`, and `\u00xx` for other control characters), and
decimal integers.  `undefined`-valued object members are omitted and
`undefined` array elements serialize as `null`, as `JSON.stringify` does. -/

/-- The decimal digit characters. -/
def digitChar : Nat → Char
  | 0 => '0' | 1 => '1' | 2 => '2' | 3 => '3' | 4 => '4'
  | 5 => '5' | 6 => '6' | 7 => '7' | 8 => '8' | _ => '9'

/-- Lowercase hexadecimal digit characters. -/
def hexChar : Nat → Char
  | 0 => '0' | 1 => '1' | 2 => '2' | 3 => '3' | 4 => '4'
  | 5 => '5' | 6 => '6' | 7 => '7' | 8 => '8' | 9 => '9'
  | 10 => 'a' | 11 => 'b' | 12 => 'c' | 13 => 'd' | 14 => 'e' | _ => 'f'

/-- Decimal digits of a natural number, most significant first. -/
def natDigits (n : Nat) : List Char :=
  if _h : n < 10 then [digitChar n]
  else natDigits (n / 10) ++ [digitChar (n % 10)]
termination_by n
decreasing_by exact Nat.div_lt_self (by omega) (by omega)

/-- Decimal rendering of an integer, as JavaScript prints integral numbers. -/
def intDigits : Int → List Char
  | .ofNat n => natDigits n
  | .negSucc m => '-' :: natDigits (m + 1)

/-- JSON escape of one character, as `JSON.stringify` performs it. -/
def escChar (c : Char) : List Char :=
  if c = '"' then ['\\', '"']
  else if c = '\\' then ['\\', '\\']
  else if c = '\x08' then ['\\', 'b']
  else if c = '\x09' then ['\\', 't']
  else if c = '\x0a' then ['\\', 'n']
  else if c = '\x0c' then ['\\', 'f']
  else if c = '\x0d' then ['\\', 'r']
  else if c.toNat < 32 then
    ['\\', 'u', '0', '0', hexChar (c.toNat / 16), hexChar (c.toNat % 16)]
  else [c]

/-- A JSON string literal: quoted and escaped. -/
def escString (s : String) : List Char :=
  '"' :: (s.data.map escChar).flatten ++ ['"']

/-- The two-space indentation at nesting depth `d`. -/
def indentChars (d : Nat) : List Char :=
  List.replicate (2 * d) ' '

/-- `",\n<indent>"`-separated continuation entries of an array or object. -/
def sepEntries (d : Nat) : List (List Char) → List Char
  | [] => []
  | e :: es => ',' :: '\n' :: (indentChars (d + 1) ++ e ++ sepEntries d es)

/-- Assembled array/object body: `JSON.stringify` prints `[]`/`{}` for an
empty collection and otherwise puts every entry on its own indented line. -/
def joinEntries (d : Nat) (ob cb : Char) : List (List Char) → List Char
  | [] => [ob, cb]
  | e :: es =>
      ob :: '\n' :: (indentChars (d + 1) ++ e ++ sepEntries d es
        ++ '\n' :: (indentChars d ++ [cb]))

mutual

/-- Characters of `JSON.stringify(v, null, 2)` at nesting depth `d`. -/
def strVal (d : Nat) : JValue → List Char
  | .vundefined => ['n', 'u', 'l', 'l']
  | .vnull => ['n', 'u', 'l', 'l']
  | .vbool true => ['t', 'r', 'u', 'e']
  | .vbool false => ['f', 'a', 'l', 's', 'e']
  | .vnum n => intDigits n
  | .vstr s => escString s
  | .varr xs => joinEntries d '[' ']' (strItemList d xs)
  | .vobj fs => joinEntries d '{' '}' (strEntryList d fs)

/-- Serialized array elements (an `undefined` element prints as `null`,
which the `.vundefined` case of `strVal` yields). -/
def strItemList (d : Nat) : List JValue → List (List Char)
  | [] => []
  | x :: xs => strVal (d + 1) x :: strItemList d xs

/-- Serialized object entries; members whose value is `undefined` are
omitted, as `JSON.stringify` omits them. -/
def strEntryList (d : Nat) : List (String × JValue) → List (List Char)
  | [] => []
  | (k, v) :: fs =>
      if v == .vundefined then strEntryList d fs
      else (escString k ++ ':' :: ' ' :: strVal (d + 1) v) :: strEntryList d fs

end

/-- `JSON.stringify(v, null, 2)` as a string (for JSON-serializable `v`;
a top-level `undefined`, which `JSON.stringify` maps to no string at all,
is outside the JSON-serializable fragment the claims quantify over). -/
def jsonStringify (v : JValue) : String :=
  String.mk (strVal 0 v)

mutual

/-- `v` contains no `undefined`, i.e. is a JSON-serializable value. -/
def noUndefined : JValue → Bool
  | .vundefined => false
  | .varr xs => noUndefinedL xs
  | .vobj fs => noUndefinedF fs
  | _ => true

def noUndefinedL : List JValue → Bool
  | [] => true
  | x :: xs => noUndefined x && noUndefinedL xs

def noUndefinedF : List (String × JValue) → Bool
  | [] => true
  | (_, v) :: fs => noUndefined v && noUndefinedF fs

end

mutual

/-- Node count of a JSON value; used as a parsing fuel bound. -/
def jsize : JValue → Nat
  | .varr xs => jsizeL xs + 1
  | .vobj fs => jsizeF fs + 1
  | _ => 1

def jsizeL : List JValue → Nat
  | [] => 0
  | x :: xs => jsize x + jsizeL xs + 1

def jsizeF : List (String × JValue) → Nat
  | [] => 0
  | (_, v) :: fs => jsize v + jsizeF fs + 1

end

/-! ## JavaScript string coercion (legacy dispatcher's `String(x)`) -/

mutual

/-- JavaScript `String(x)` coercion. -/
def jsToString : JValue → String
  | .vundefined => "undefined"
  | .vnull => "null"
  | .vbool true => "true"
  | .vbool false => "false"
  | .vnum n => String.mk (intDigits n)
  | .vstr s => s
  | .varr xs => jsToStringArr xs
  | .vobj _ => "[object Object]"

/-- `Array.prototype.toString`: elements joined with `","`, where `null`
and `undefined` elements contribute the empty string. -/
def jsToStringArr : List JValue → String
  | [] => ""
  | [x] => jsElemString x
  | x :: xs => jsElemString x ++ "," ++ jsToStringArr xs

/-- One joined element: like `String(x)` except that `null` and `undefined`
become empty. -/
def jsElemString : JValue → String
  | .vundefined => ""
  | .vnull => ""
  | .vbool true => "true"
  | .vbool false => "false"
  | .vnum n => String.mk (intDigits n)
  | .vstr s => s
  | .varr xs => jsToStringArr xs
  | .vobj _ => "[object Object]"

end

/-- ASCII lower-casing of one character (`String.prototype.toLowerCase`
restricted to the ASCII range, which covers all values the dispatcher
compares). -/
def asciiLower (c : Char) : Char :=
  if 65 ≤ c.toNat ∧ c.toNat ≤ 90 then Char.ofNat (c.toNat + 32) else c

/-- `s.toLowerCase()`. -/
def strLower (s : String) : String :=
  String.mk (s.data.map asciiLower)

/-! ## Response formatter (`ResponseFormatter.ts`) -/

/-- One item of a response envelope's `content` array. -/
structure ContentItem where
  type : String
  text : String
deriving DecidableEq, Repr

/-- The MCP response envelope: the single outbound shape of every call.
`formatSuccess` leaves `isError` absent, which readers treat as `false`. -/
structure ResponseEnvelope where
  isError : Bool
  content : List ContentItem
deriving DecidableEq, Repr

/-- The failures that can be thrown inside the dispatch boundary:
`McpError` (validation / unknown tool), `AxiosError` (upstream failure,
with the optional `response.data.message` payload), any other `Error`,
or a thrown non-`Error` value. -/
inductive JsError where
  | mcpError (code : Int) (message : String)
  | axiosError (responseDataMessage : Option JValue) (message : String)
  | otherError (message : String)
  | thrownValue (v : JValue)
deriving Repr

/-- `ErrorCode.InvalidParams` of the MCP SDK. -/
def invalidParams : Int := -32602

/-- `ErrorCode.MethodNotFound` of the MCP SDK. -/
def methodNotFound : Int := -32601

/-- `ResponseFormatter.formatSuccess`: wrap the payload's pretty-printed
JSON in a single `"text"` content item. -/
def formatSuccess (data : JValue) : ResponseEnvelope :=
  { isError := false
    content := [{ type := "text", text := jsonStringify data }] }

/-- The `a || b` chain value used in the Axios branch of `formatError`. -/
def orElse3 (a b c : JValue) : JValue :=
  if jsTruthy a then a else if jsTruthy b then b else c

/-- `ResponseFormatter.formatError`: classify the failure and produce an
error envelope; the Axios branch prefixes `"NS API error: "` and falls back
through `error.response?.data?.message || error.message || 'Unknown error'`. -/
def formatError : JsError → ResponseEnvelope
  | .mcpError _ message =>
      { isError := true, content := [{ type := "text", text := message }] }
  | .axiosError responseDataMessage message =>
      { isError := true
        content := [{ type := "text"
                      text := "NS API error: " ++
                        jsToString (orElse3 (responseDataMessage.getD .vundefined)
                          (.vstr message) (.vstr "Unknown error")) }] }
  | .otherError message =>
      { isError := true, content := [{ type := "text", text := message }] }
  | .thrownValue _ =>
      { isError := true
        content := [{ type := "text", text := "Unknown error occurred" }] }

/-! ## Upstream client (`NSApiService.ts`)

Each method issues one GET against a fixed path with a params object built
from the validated arguments.  Axios omits `undefined` and `null` entries
from the query string, so the effective query parameter set is the params
list with those entries dropped. -/

/-- One upstream HTTP GET: fixed path plus effective query parameters. -/
structure UpstreamReq where
  path : String
  params : List (String × JValue)
deriving Repr

/-- Axios's query serialization drops `undefined` and `null` values. -/
def dropAbsent (l : List (String × JValue)) : List (String × JValue) :=
  l.filter (fun p => !(p.2 == .vundefined) && !(p.2 == .vnull))

/-- `NSApiService.getDisruptions`: forwards `isActive` and `type` verbatim. -/
def disruptionsRequest (args : JValue) : UpstreamReq :=
  { path := "/disruptions/v3"
    params := dropAbsent
      [("isActive", getField args "isActive"), ("type", getField args "type")] }

/-- `NSApiService.getTravelAdvice`. -/
def travelAdviceRequest (args : JValue) : UpstreamReq :=
  { path := "/reisinformatie-api/api/v3/trips"
    params := dropAbsent
      [("fromStation", getField args "fromStation"),
       ("toStation", getField args "toStation"),
       ("dateTime", getField args "dateTime"),
       ("searchForArrival", getField args "searchForArrival")] }

/-- `NSApiService.getDepartures`: note that `uicCode` is never forwarded. -/
def departuresRequest (args : JValue) : UpstreamReq :=
  { path := "/reisinformatie-api/api/v2/departures"
    params := dropAbsent
      [("station", getField args "station"),
       ("dateTime", getField args "dateTime"),
       ("maxJourneys", getField args "maxJourneys"),
       ("lang", getField args "lang")] }

/-- `NSApiService.getOVFiets`. -/
def ovfietsRequest (args : JValue) : UpstreamReq :=
  { path := "/places-api/v2/ovfiets"
    params := dropAbsent [("station_code", getField args "stationCode")] }

/-- `NSApiService.getStationInfo`: `includeNonPlannableStations` defaults to
`false` and `limit` defaults to `10` via `??`. -/
def stationInfoRequest (args : JValue) : UpstreamReq :=
  { path := "/nsapp-stations/v3"
    params := dropAbsent
      [("q", getField args "query"),
       ("includeNonPlannableStations",
         nullish (getField args "includeNonPlannableStations") (.vbool false)),
       ("limit", nullish (getField args "limit") (.vnum 10))] }

/-- `NSApiService.getArrivals`. -/
def arrivalsRequest (args : JValue) : UpstreamReq :=
  { path := "/reisinformatie-api/api/v2/arrivals"
    params := dropAbsent
      [("station", getField args "station"),
       ("uicCode", getField args "uicCode"),
       ("dateTime", getField args "dateTime"),
       ("maxJourneys", getField args "maxJourneys"),
       ("lang", getField args "lang")] }

/-! ## Tool dispatcher (evolved draft, `setupToolHandlers`) -/

/-- The names of the static tool catalog, in declaration order. -/
def toolNames : List String :=
  ["get_disruptions", "get_travel_advice", "get_departures", "get_ovfiets",
   "get_station_info", "get_current_time_in_rfc3339", "get_arrivals"]

/-- The `oneOf` requirement the catalog declares for `get_departures` and
`get_arrivals`: either `station` or `uicCode` must be present. -/
def declaredEitherStationOrUic (args : JValue) : Bool :=
  (match args with
   | .vobj fs => fs.any (fun p => p.1 == "station")
   | _ => false) ||
  (match args with
   | .vobj fs => fs.any (fun p => p.1 == "uicCode")
   | _ => false)

/-- The numeric bounds the catalog declares for `maxJourneys` on
`get_departures` and `get_arrivals`: if present it must be a number in
1..100. -/
def declaredMaxJourneysOk (args : JValue) : Bool :=
  match getField args "maxJourneys" with
  | .vundefined => true
  | .vnum n => 1 ≤ n && n ≤ 100
  | _ => false

/-- The body of the evolved `CallToolRequestSchema` handler, up to but not
including the surrounding `try`/`catch`: the tool-name `switch`, the
validator gate of each case, the upstream call and the computation of the
success payload.  `upstream` is the opaque HTTP collaborator (it returns the
decoded JSON body or throws), and `now` is the current instant used by the
one network-free tool. -/
def dispatchData (upstream : UpstreamReq → Except JsError JValue) (now : String)
    (name : String) (rawArguments : JValue) : Except JsError JValue :=
  let rawArgs := if jsTruthy rawArguments then rawArguments else .vobj []
  if name = "get_disruptions" then
    if !isValidDisruptionsArgs rawArgs then
      .error (.mcpError invalidParams "Invalid arguments for get_disruptions")
    else upstream (disruptionsRequest rawArgs)
  else if name = "get_travel_advice" then
    if !isValidTravelAdviceArgs rawArgs then
      .error (.mcpError invalidParams "Invalid arguments for get_travel_advice")
    else upstream (travelAdviceRequest rawArgs)
  else if name = "get_departures" then
    if !isValidDeparturesArgs rawArgs then
      .error (.mcpError invalidParams "Invalid arguments for get_departures")
    else upstream (departuresRequest rawArgs)
  else if name = "get_ovfiets" then
    if !isValidOVFietsArgs rawArgs then
      .error (.mcpError invalidParams "Invalid arguments for get_ovfiets")
    else upstream (ovfietsRequest rawArgs)
  else if name = "get_station_info" then
    match isValidStationInfoArgs rawArgs with
    | .error _ =>
        .error (.otherError "Cannot read properties of null (reading 'query')")
    | .ok valid =>
        if !valid then
          .error (.mcpError invalidParams "Invalid arguments for get_station_info")
        else upstream (stationInfoRequest rawArgs)
  else if name = "get_current_time_in_rfc3339" then
    .ok (.vobj [("datetime", .vstr now), ("timezone", .vstr "Europe/Amsterdam")])
  else if name = "get_arrivals" then
    if !isValidArrivalsArgs rawArgs then
      .error (.mcpError invalidParams "Invalid arguments for get_arrivals")
    else upstream (arrivalsRequest rawArgs)
  else
    .error (.mcpError methodNotFound ("Unknown tool: " ++ name))

/-- The evolved call-tool handler: every successful case wraps its payload
with `formatSuccess`, and the surrounding `catch` converts every thrown
failure with `formatError`. -/
def callTool (upstream : UpstreamReq → Except JsError JValue) (now : String)
    (name : String) (rawArguments : JValue) : ResponseEnvelope :=
  match dispatchData upstream now name rawArguments with
  | .ok data => formatSuccess data
  | .error e => formatError e

/-! ## Legacy single-file dispatcher (`src/index.ts` draft)

The earlier draft handles only `get_disruptions` and `get_travel_advice`
and shapes arguments before validating: for disruptions it spreads a
default `isActive: true` under the raw bag and then, when `isActive` was
present, overrides it with `String(rawArgs.isActive).toLowerCase() ===
'true'`. -/

/-- Fields of an object value (the only spread the legacy code performs). -/
def fieldsOf : JValue → List (String × JValue)
  | .vobj fs => fs
  | _ => []

/-- Replace or append one binding, as a later key in an object literal
overrides an earlier one. -/
def setField (fs : List (String × JValue)) (k : String) (v : JValue) :
    List (String × JValue) :=
  if fs.any (fun p => p.1 == k) then
    fs.map (fun p => if p.1 == k then (k, v) else p)
  else fs ++ [(k, v)]

/-- The legacy disruptions argument shaping:
`{ isActive: true, ...rawArgs, ...(rawArgs.isActive !== undefined &&
{ isActive: String(rawArgs.isActive).toLowerCase() === 'true' }) }`. -/
def legacyShapedDisruptionsArgs (rawArgs : JValue) : JValue :=
  let base := (fieldsOf rawArgs).foldl (fun acc p => setField acc p.1 p.2)
    [("isActive", JValue.vbool true)]
  let ia := getField rawArgs "isActive"
  if ia == .vundefined then .vobj base
  else .vobj (setField base "isActive"
    (.vbool (strLower (jsToString ia) == "true")))

/-- The legacy disruptions upstream params
(`{ isActive: args.isActive, type: args.type }` after shaping). -/
def legacyDisruptionsRequest (rawArgs : JValue) : UpstreamReq :=
  { path := "/disruptions/v3"
    params := dropAbsent
      [("isActive", getField (legacyShapedDisruptionsArgs rawArgs) "isActive"),
       ("type", getField (legacyShapedDisruptionsArgs rawArgs) "type")] }

/-- The legacy travel-advice argument shaping:
`fromStation: String(rawArgs.fromStation || '')`, likewise `toStation`,
`dateTime` passed through, and `searchForArrival: rawArgs.searchForArrival
=== true` — no case-insensitive string comparison is applied to it. -/
def legacyShapedTravelAdviceArgs (rawArgs : JValue) : JValue :=
  .vobj
    [("fromStation", .vstr (jsToString
        (if jsTruthy (getField rawArgs "fromStation")
         then getField rawArgs "fromStation" else .vstr ""))),
     ("toStation", .vstr (jsToString
        (if jsTruthy (getField rawArgs "toStation")
         then getField rawArgs "toStation" else .vstr ""))),
     ("dateTime", getField rawArgs "dateTime"),
     ("searchForArrival", .vbool (getField rawArgs "searchForArrival" == .vbool true))]

/-! ## JSON parsing

`JSON.parse`, the host function the round-trip property runs the
serializer's output through, embedded as a recursive-descent parser over
the integer-number JSON fragment.  A fuel argument bounds the nesting
depth; `jsonParse` supplies fuel exceeding the input length, which the
round-trip proof shows is always sufficient. -/

/-- JSON insignificant whitespace. -/
def isWsChar (c : Char) : Bool :=
  c = ' ' || c = '\n' || c = '\t' || c = '\r'

/-- Drop leading whitespace. -/
def skipWs : List Char → List Char
  | [] => []
  | c :: cs => if isWsChar c then skipWs cs else c :: cs

/-- Numeric value of a decimal digit character. -/
def digitVal (c : Char) : Nat := c.toNat - 48

/-- Numeric value of a hexadecimal digit character, if any. -/
def hexVal (c : Char) : Option Nat :=
  if c.isDigit then some (c.toNat - 48)
  else if 97 ≤ c.toNat ∧ c.toNat ≤ 102 then some (c.toNat - 87)
  else if 65 ≤ c.toNat ∧ c.toNat ≤ 70 then some (c.toNat - 55)
  else none

/-- Greedily consume decimal digits, extending the accumulator. -/
def pNat : Nat → List Char → Nat × List Char
  | acc, [] => (acc, [])
  | acc, c :: rest =>
      if c.isDigit then pNat (10 * acc + digitVal c) rest else (acc, c :: rest)

/-- Parse the body of a JSON string literal (after the opening quote),
returning the decoded characters and the input after the closing quote. -/
def pStringBody : List Char → Option (List Char × List Char)
  | [] => none
  | c :: rest =>
    if c = '"' then some ([], rest)
    else if c = '\\' then
      match rest with
      | e :: r2 =>
        if e = '"' then (pStringBody r2).map (fun p => ('"' :: p.1, p.2))
        else if e = '\\' then (pStringBody r2).map (fun p => ('\\' :: p.1, p.2))
        else if e = '/' then (pStringBody r2).map (fun p => ('/' :: p.1, p.2))
        else if e = 'b' then (pStringBody r2).map (fun p => ('\x08' :: p.1, p.2))
        else if e = 'f' then (pStringBody r2).map (fun p => ('\x0c' :: p.1, p.2))
        else if e = 'n' then (pStringBody r2).map (fun p => ('\n' :: p.1, p.2))
        else if e = 'r' then (pStringBody r2).map (fun p => ('\x0d' :: p.1, p.2))
        else if e = 't' then (pStringBody r2).map (fun p => ('\x09' :: p.1, p.2))
        else if e = 'u' then
          match r2 with
          | h1 :: h2 :: h3 :: h4 :: r3 =>
            match hexVal h1, hexVal h2, hexVal h3, hexVal h4 with
            | some a, some b, some c2, some d2 =>
                (pStringBody r3).map
                  (fun p => (Char.ofNat (((a * 16 + b) * 16 + c2) * 16 + d2) :: p.1, p.2))
            | _, _, _, _ => none
          | _ => none
        else none
      | [] => none
    else (pStringBody rest).map (fun p => (c :: p.1, p.2))

mutual

/-- Parse one JSON value, skipping leading whitespace.  The fuel bounds
recursion into nested values and collection tails. -/
def pVal : Nat → List Char → Option (JValue × List Char)
  | 0, _ => none
  | fuel + 1, s =>
    match skipWs s with
    | [] => none
    | c :: rest =>
      if c.isDigit then
        match pNat (digitVal c) rest with
        | (n, r) => some (.vnum (Int.ofNat n), r)
      else if c = '-' then
        match rest with
        | c2 :: r2 =>
            if c2.isDigit then
              match pNat (digitVal c2) r2 with
              | (n, r) => some (.vnum (-(Int.ofNat n)), r)
            else none
        | [] => none
      else if c = 'n' then
        match rest with
        | 'u' :: 'l' :: 'l' :: r => some (.vnull, r)
        | _ => none
      else if c = 't' then
        match rest with
        | 'r' :: 'u' :: 'e' :: r => some (.vbool true, r)
        | _ => none
      else if c = 'f' then
        match rest with
        | 'a' :: 'l' :: 's' :: 'e' :: r => some (.vbool false, r)
        | _ => none
      else if c = '"' then
        (pStringBody rest).map (fun p => (.vstr (String.mk p.1), p.2))
      else if c = '[' then
        match skipWs rest with
        | c2 :: r2 =>
            if c2 = ']' then some (.varr [], r2)
            else
              match pVal fuel rest with
              | some (x, r) => pArrTail fuel [x] r
              | none => none
        | [] => none
      else if c = '{' then
        match skipWs rest with
        | c2 :: r2 =>
            if c2 = '}' then some (.vobj [], r2)
            else
              match pMember fuel rest with
              | some (kv, r) => pObjTail fuel [kv] r
              | none => none
        | [] => none
      else none

/-- Parse the continuation of an array after at least one element. -/
def pArrTail : Nat → List JValue → List Char → Option (JValue × List Char)
  | 0, _, _ => none
  | fuel + 1, acc, s =>
    match skipWs s with
    | c :: rest =>
        if c = ',' then
          match pVal fuel rest with
          | some (x, r) => pArrTail fuel (acc ++ [x]) r
          | none => none
        else if c = ']' then some (.varr acc, rest)
        else none
    | [] => none

/-- Parse one `"key": value` object member. -/
def pMember : Nat → List Char → Option ((String × JValue) × List Char)
  | 0, _ => none
  | fuel + 1, s =>
    match skipWs s with
    | c :: rest =>
        if c = '"' then
          match pStringBody rest with
          | some (k, r2) =>
              (match skipWs r2 with
               | c2 :: r3 =>
                   if c2 = ':' then
                     (pVal fuel r3).map (fun p => ((String.mk k, p.1), p.2))
                   else none
               | [] => none)
          | none => none
        else none
    | [] => none

/-- Parse the continuation of an object after at least one member. -/
def pObjTail : Nat → List (String × JValue) → List Char → Option (JValue × List Char)
  | 0, _, _ => none
  | fuel + 1, acc, s =>
    match skipWs s with
    | c :: rest =>
        if c = ',' then
          match pMember fuel rest with
          | some (kv, r) => pObjTail fuel (acc ++ [kv]) r
          | none => none
        else if c = '}' then some (.vobj acc, rest)
        else none
    | [] => none

end

/-- `JSON.parse`: parse one value and demand only whitespace after it. -/
def jsonParse (s : String) : Option JValue :=
  match pVal (s.length + 1) s.data with
  | some (v, rest) => if skipWs rest = [] then some v else none
  | none => none

/-- The input left after a serialized number must not begin with a digit
(inside serialized output it begins with `,`, a newline, a closing bracket,
or is empty). -/
def delimB : List Char → Bool
  | [] => true
  | c :: _ => !c.isDigit

/-- Characters that can begin a serialized JSON value: not whitespace and
not a closing bracket, which is what the parser's look-ahead distinguishes. -/
def startOk (c : Char) : Bool :=
  !isWsChar c && !(c = ']') && !(c = '}') && !(c = ',')

/-! # Theorems -/

section Lemmas

/-! ## Whitespace -/

theorem skipWs_cons_not_ws {c : Char} (h : isWsChar c = false) (t : List Char) :
    skipWs (c :: t) = c :: t := by
  simp [skipWs, h]

theorem skipWs_cons_ws {c : Char} (h : isWsChar c = true) (t : List Char) :
    skipWs (c :: t) = skipWs t := by
  simp [skipWs, h]

theorem skipWs_newline (t : List Char) : skipWs ('\n' :: t) = skipWs t :=
  skipWs_cons_ws (by decide) t

theorem skipWs_spaces (k : Nat) (t : List Char) :
    skipWs (List.replicate k ' ' ++ t) = skipWs t := by
  induction k with
  | zero => simp
  | succ k ih => simpa [List.replicate_succ, skipWs_cons_ws (c := ' ') (by decide)] using ih

theorem skipWs_indent (d : Nat) (t : List Char) :
    skipWs (indentChars d ++ t) = skipWs t :=
  skipWs_spaces (2 * d) t

/-! ## Decimal digits -/

theorem digitChar_isDigit {k : Nat} (h : k < 10) : (digitChar k).isDigit = true := by
  have : ∀ m : Fin 10, (digitChar m).isDigit = true := by decide
  exact this ⟨k, h⟩

theorem digitVal_digitChar {k : Nat} (h : k < 10) : digitVal (digitChar k) = k := by
  have : ∀ m : Fin 10, digitVal (digitChar m) = m := by decide
  exact this ⟨k, h⟩

theorem natDigits_ne_nil (n : Nat) : natDigits n ≠ [] := by
  rw [natDigits]
  split
  · simp
  · simp

theorem natDigits_all_digits : ∀ n c, c ∈ natDigits n → c.isDigit = true := by
  intro n
  induction n using Nat.strong_induction_on with
  | _ n ih =>
    intro c hc
    rw [natDigits] at hc
    split at hc
    · next h =>
        simp only [List.mem_singleton] at hc
        exact hc ▸ digitChar_isDigit h
    · next h =>
        rcases List.mem_append.mp hc with h1 | h2
        · exact ih (n / 10) (Nat.div_lt_self (by omega) (by omega)) c h1
        · simp only [List.mem_singleton] at h2
          exact h2 ▸ digitChar_isDigit (Nat.mod_lt _ (by omega))

theorem pNat_digits :
    ∀ (ds : List Char) (acc : Nat) (rest : List Char),
      (∀ c ∈ ds, c.isDigit = true) → delimB rest = true →
      pNat acc (ds ++ rest) =
        (ds.foldl (fun a c => 10 * a + digitVal c) acc, rest) := by
  intro ds
  induction ds with
  | nil =>
    intro acc rest _ hrest
    cases rest with
    | nil => rfl
    | cons c t =>
      simp only [delimB, Bool.not_eq_true'] at hrest
      simp [pNat, hrest]
  | cons c ds ih =>
    intro acc rest hds hrest
    have hc : c.isDigit = true := hds c (by simp)
    simp only [List.cons_append, pNat, hc, if_true, List.foldl_cons]
    exact ih _ rest (fun x hx => hds x (by simp [hx])) hrest

theorem foldl_natDigits :
    ∀ n acc, (natDigits n).foldl (fun a c => 10 * a + digitVal c) acc =
      acc * 10 ^ (natDigits n).length + n := by
  intro n
  induction n using Nat.strong_induction_on with
  | _ n ih =>
    intro acc
    rw [natDigits]
    split
    · next h =>
      simp [digitVal_digitChar h]
      omega
    · next h =>
      rw [List.foldl_append, List.length_append]
      rw [ih (n / 10) (Nat.div_lt_self (by omega) (by omega)) acc]
      simp only [List.foldl_cons, List.foldl_nil, List.length_cons, List.length_nil]
      rw [digitVal_digitChar (Nat.mod_lt _ (by omega))]
      have hnm := Nat.div_add_mod n 10
      ring_nf
      omega

theorem pNat_natDigits (n : Nat) (rest : List Char) (hrest : delimB rest = true) :
    ∃ c ds, natDigits n = c :: ds ∧ c.isDigit = true ∧
      pNat (digitVal c) (ds ++ rest) = (n, rest) := by
  obtain ⟨c, ds, hds⟩ : ∃ c ds, natDigits n = c :: ds := by
    cases h : natDigits n with
    | nil => exact absurd h (natDigits_ne_nil n)
    | cons c ds => exact ⟨c, ds, rfl⟩
  refine ⟨c, ds, hds, natDigits_all_digits n c (by simp [hds]), ?_⟩
  have hall : ∀ x ∈ ds, x.isDigit = true := fun x hx =>
    natDigits_all_digits n x (by simp [hds, hx])
  rw [pNat_digits ds (digitVal c) rest hall hrest]
  have := foldl_natDigits n 0
  rw [hds] at this
  simp only [List.foldl_cons, Nat.mul_zero, Nat.zero_add] at this
  simp [this]

/-! ## String escaping -/

theorem hexVal_hexChar {m : Nat} (h : m < 16) : hexVal (hexChar m) = some m := by
  have : ∀ k : Fin 16, hexVal (hexChar k) = some k := by decide
  exact this ⟨m, h⟩

theorem pStringBody_u (a b : Char) (x y : Nat) (t : List Char)
    (ha : hexVal a = some x) (hb : hexVal b = some y) :
    pStringBody ('\\' :: 'u' :: '0' :: '0' :: a :: b :: t) =
      (pStringBody t).map (fun p => (Char.ofNat (x * 16 + y) :: p.1, p.2)) := by
  have h0 : hexVal '0' = some 0 := by decide
  rw [pStringBody.eq_def]
  simp only [h0, ha, hb]
  simp

theorem pStringBody_esc (c : Char) (t : List Char) :
    pStringBody (escChar c ++ t) = (pStringBody t).map (fun p => (c :: p.1, p.2)) := by
  unfold escChar
  split_ifs with h1 h2 h3 h4 h5 h6 h7 h8
  · subst h1; rw [List.cons_append, List.cons_append, List.nil_append,
      pStringBody.eq_def]; simp
  · subst h2; rw [List.cons_append, List.cons_append, List.nil_append,
      pStringBody.eq_def]; simp
  · subst h3; rw [List.cons_append, List.cons_append, List.nil_append,
      pStringBody.eq_def]; simp
  · subst h4; rw [List.cons_append, List.cons_append, List.nil_append,
      pStringBody.eq_def]; simp
  · subst h5; rw [List.cons_append, List.cons_append, List.nil_append,
      pStringBody.eq_def]; simp
  · subst h6; rw [List.cons_append, List.cons_append, List.nil_append,
      pStringBody.eq_def]; simp
  · subst h7; rw [List.cons_append, List.cons_append, List.nil_append,
      pStringBody.eq_def]; simp
  · have hhi : c.toNat / 16 < 16 := by omega
    have hlo : c.toNat % 16 < 16 := Nat.mod_lt _ (by omega)
    rw [List.cons_append, List.cons_append, List.cons_append, List.cons_append,
      List.cons_append, List.cons_append, List.nil_append]
    rw [pStringBody_u _ _ _ _ t (hexVal_hexChar hhi) (hexVal_hexChar hlo)]
    have hval : c.toNat / 16 * 16 + c.toNat % 16 = c.toNat := by omega
    rw [hval, Char.ofNat_toNat]
  · rw [List.singleton_append, pStringBody.eq_def]
    simp only [if_neg h1, if_neg h2]

theorem pStringBody_rt (cs : List Char) (t : List Char) :
    pStringBody ((cs.map escChar).flatten ++ '"' :: t) = some (cs, t) := by
  induction cs with
  | nil =>
    simp only [List.map_nil, List.flatten_nil, List.nil_append]
    rw [pStringBody.eq_def]
    simp
  | cons c cs ih =>
    rw [List.map_cons, List.flatten_cons, List.append_assoc, pStringBody_esc]
    simp [ih]

/-! ## Serialized values: head characters and whitespace congruence -/

theorem startOk_of_isDigit {c : Char} (h : c.isDigit = true) : startOk c = true := by
  have h1 : c ≠ ' ' := by rintro rfl; exact absurd h (by decide)
  have h2 : c ≠ '\n' := by rintro rfl; exact absurd h (by decide)
  have h3 : c ≠ '\t' := by rintro rfl; exact absurd h (by decide)
  have h4 : c ≠ '\x0d' := by rintro rfl; exact absurd h (by decide)
  have h5 : c ≠ ']' := by rintro rfl; exact absurd h (by decide)
  have h6 : c ≠ '}' := by rintro rfl; exact absurd h (by decide)
  have h7 : c ≠ ',' := by rintro rfl; exact absurd h (by decide)
  simp [startOk, isWsChar, h1, h2, h3, h4, h5, h6, h7]

theorem strVal_cons (d : Nat) (v : JValue) :
    ∃ c cs, strVal d v = c :: cs ∧ startOk c = true := by
  cases v with
  | vundefined => exact ⟨'n', ['u', 'l', 'l'], by simp [strVal], by decide⟩
  | vnull => exact ⟨'n', ['u', 'l', 'l'], by simp [strVal], by decide⟩
  | vbool b =>
    cases b with
    | false => exact ⟨'f', ['a', 'l', 's', 'e'], by simp [strVal], by decide⟩
    | true => exact ⟨'t', ['r', 'u', 'e'], by simp [strVal], by decide⟩
  | vnum n =>
    cases n with
    | ofNat m =>
      obtain ⟨c, ds, hds⟩ : ∃ c ds, natDigits m = c :: ds := by
        cases h : natDigits m with
        | nil => exact absurd h (natDigits_ne_nil m)
        | cons c ds => exact ⟨c, ds, rfl⟩
      exact ⟨c, ds, by simp [strVal, intDigits, hds],
        startOk_of_isDigit (natDigits_all_digits m c (by simp [hds]))⟩
    | negSucc m => exact ⟨'-', natDigits (m + 1), by simp [strVal, intDigits], by decide⟩
  | vstr s =>
    exact ⟨'"', (List.map escChar s.data).flatten ++ ['"'],
      by simp [strVal, escString], by decide⟩
  | varr xs =>
    cases h : strItemList d xs with
    | nil => exact ⟨'[', [']'], by simp [strVal, h, joinEntries], by decide⟩
    | cons e es =>
      exact ⟨'[', '\n' :: (indentChars (d + 1) ++ (e ++ (sepEntries d es
          ++ '\n' :: (indentChars d ++ [']'])))),
        by simp [strVal, h, joinEntries], by decide⟩
  | vobj fs =>
    cases h : strEntryList d fs with
    | nil => exact ⟨'{', ['}'], by simp [strVal, h, joinEntries], by decide⟩
    | cons e es =>
      exact ⟨'{', '\n' :: (indentChars (d + 1) ++ (e ++ (sepEntries d es
          ++ '\n' :: (indentChars d ++ ['}'])))),
        by simp [strVal, h, joinEntries], by decide⟩

theorem pVal_ws (f : Nat) {s₁ s₂ : List Char} (h : skipWs s₁ = skipWs s₂) :
    pVal (f + 1) s₁ = pVal (f + 1) s₂ := by
  rw [pVal.eq_2, pVal.eq_2, h]

theorem pArrTail_ws (f : Nat) (acc : List JValue) {s₁ s₂ : List Char}
    (h : skipWs s₁ = skipWs s₂) :
    pArrTail (f + 1) acc s₁ = pArrTail (f + 1) acc s₂ := by
  rw [pArrTail.eq_2, pArrTail.eq_2, h]

theorem pObjTail_ws (f : Nat) (acc : List (String × JValue)) {s₁ s₂ : List Char}
    (h : skipWs s₁ = skipWs s₂) :
    pObjTail (f + 1) acc s₁ = pObjTail (f + 1) acc s₂ := by
  rw [pObjTail.eq_2, pObjTail.eq_2, h]

theorem pMember_ws (f : Nat) {s₁ s₂ : List Char} (h : skipWs s₁ = skipWs s₂) :
    pMember (f + 1) s₁ = pMember (f + 1) s₂ := by
  rw [pMember.eq_2, pMember.eq_2, h]

/-! ## Sizes and serializability -/

theorem jsize_pos (v : JValue) : 1 ≤ jsize v := by
  cases v <;> simp [jsize]

theorem jsize_le_of_mem {x : JValue} : ∀ {xs : List JValue}, x ∈ xs → jsize x ≤ jsizeL xs := by
  intro xs
  induction xs with
  | nil => intro h; cases h
  | cons a as ih =>
    intro h
    rcases List.mem_cons.mp h with rfl | h2
    · simp [jsizeL]; omega
    · have := ih h2
      simp [jsizeL]; omega

theorem jsizeF_le_of_mem {k : String} {v : JValue} :
    ∀ {fs : List (String × JValue)}, (k, v) ∈ fs → jsize v ≤ jsizeF fs := by
  intro fs
  induction fs with
  | nil => intro h; cases h
  | cons a as ih =>
    intro h
    rcases List.mem_cons.mp h with rfl | h2
    · simp [jsizeF]; omega
    · have := ih h2
      rcases a with ⟨k2, v2⟩
      simp [jsizeF]; omega

theorem noUndefinedL_mem {x : JValue} :
    ∀ {xs : List JValue}, noUndefinedL xs = true → x ∈ xs → noUndefined x = true := by
  intro xs
  induction xs with
  | nil => intro _ h; cases h
  | cons a as ih =>
    intro hall h
    simp only [noUndefinedL, Bool.and_eq_true] at hall
    rcases List.mem_cons.mp h with rfl | h2
    · exact hall.1
    · exact ih hall.2 h2

theorem noUndefinedF_mem {k : String} {v : JValue} :
    ∀ {fs : List (String × JValue)}, noUndefinedF fs = true → (k, v) ∈ fs → noUndefined v = true := by
  intro fs
  induction fs with
  | nil => intro _ h; cases h
  | cons a as ih =>
    intro hall h
    rcases a with ⟨k2, v2⟩
    simp only [noUndefinedF, Bool.and_eq_true] at hall
    rcases List.mem_cons.mp h with h1 | h2
    · cases h1; exact hall.1
    · exact ih hall.2 h2

theorem noUndefined_beq_vundefined {v : JValue} (h : noUndefined v = true) : (v == .vundefined) = false := by
  cases v <;> first
    | rfl
    | exact absurd h (by simp [noUndefined])

theorem strEntryList_noUndefined (d : Nat) :
    ∀ (fs : List (String × JValue)), noUndefinedF fs = true →
      strEntryList d fs =
        fs.map (fun p => escString p.1 ++ ':' :: ' ' :: strVal (d + 1) p.2) := by
  intro fs
  induction fs with
  | nil => intro _; rfl
  | cons a as ih =>
    rcases a with ⟨k, v⟩
    intro hall
    simp only [noUndefinedF, Bool.and_eq_true] at hall
    rw [strEntryList, noUndefined_beq_vundefined hall.1]
    simp [ih hall.2]

theorem escString_len (s : String) : 2 ≤ (escString s).length := by
  simp [escString]

theorem sepEntries_len_arr :
    ∀ (xs : List JValue) (d : Nat),
      (∀ x ∈ xs, jsize x ≤ (strVal (d + 1) x).length) →
      jsizeL xs ≤ (sepEntries d (strItemList d xs)).length := by
  intro xs
  induction xs with
  | nil => intro d _; simp [jsizeL, strItemList, sepEntries]
  | cons x xs ih =>
    intro d hall
    have hx := hall x (by simp)
    have hxs := ih d (fun y hy => hall y (by simp [hy]))
    rw [strItemList, sepEntries]
    simp only [List.length_cons, List.length_append, jsizeL]
    omega

theorem sepEntries_len_obj :
    ∀ (fs : List (String × JValue)) (d : Nat),
      (∀ p ∈ fs, jsize p.2 ≤ (strVal (d + 1) p.2).length) →
      jsizeF fs ≤ (sepEntries d
        (fs.map (fun p => escString p.1 ++ ':' :: ' ' :: strVal (d + 1) p.2))).length := by
  intro fs
  induction fs with
  | nil => intro d _; simp [jsizeF, sepEntries]
  | cons p fs ih =>
    intro d hall
    rcases p with ⟨k, v⟩
    have hv := hall (k, v) (by simp)
    have hfs := ih d (fun q hq => hall q (by simp [hq]))
    have hk := escString_len k
    rw [List.map_cons, sepEntries]
    simp only [List.length_cons, List.length_append, jsizeF] at *
    omega

theorem jsize_le_strVal_len :
    ∀ (n : Nat) (v : JValue) (d : Nat), jsize v ≤ n → noUndefined v = true →
      jsize v ≤ (strVal d v).length := by
  intro n
  induction n using Nat.strong_induction_on with
  | _ n ih =>
    intro v d hn hu
    have hpos := jsize_pos v
    cases v with
    | varr xs =>
      cases xs with
      | nil => simp [strVal, strItemList, joinEntries, jsize, jsizeL]
      | cons x xs =>
        have hmem : ∀ y ∈ x :: xs, jsize y ≤ (strVal (d + 1) y).length := by
          intro y hy
          have h1 : jsize y ≤ jsizeL (x :: xs) := jsize_le_of_mem hy
          have h2 : jsize (JValue.varr (x :: xs)) = jsizeL (x :: xs) + 1 := by simp [jsize]
          exact ih (n - 1) (by omega) y (d + 1) (by omega)
            (noUndefinedL_mem (by simpa [noUndefined] using hu) hy)
        have hx := hmem x (by simp)
        have hsep := sepEntries_len_arr xs d (fun y hy => hmem y (by simp [hy]))
        rw [strVal, strItemList, joinEntries]
        simp only [jsize, jsizeL, List.length_cons, List.length_append] at *
        omega
    | vobj fs =>
      have hufs : noUndefinedF fs = true := by simpa [noUndefined] using hu
      cases fs with
      | nil => simp [strVal, strEntryList, joinEntries, jsize, jsizeF]
      | cons p fs =>
        rcases p with ⟨k, v0⟩
        have hmem : ∀ q ∈ (k, v0) :: fs, jsize q.2 ≤ (strVal (d + 1) q.2).length := by
          intro q hq
          rcases q with ⟨k2, v2⟩
          have h1 : jsize v2 ≤ jsizeF ((k, v0) :: fs) := jsizeF_le_of_mem hq
          have h2 : jsize (JValue.vobj ((k, v0) :: fs)) = jsizeF ((k, v0) :: fs) + 1 := by
            simp [jsize]
          exact ih (n - 1) (by omega) v2 (d + 1) (by omega) (noUndefinedF_mem hufs hq)
        have hv0 := hmem (k, v0) (by simp)
        have hsep := sepEntries_len_obj fs d (fun q hq => hmem q (by simp [hq]))
        have hk := escString_len k
        rw [strVal, strEntryList_noUndefined d _ hufs, List.map_cons, joinEntries]
        simp only [jsize, jsizeF, List.length_cons, List.length_append] at *
        omega
    | vundefined => exact absurd hu (by simp [noUndefined])
    | vnull =>
      obtain ⟨c, cs, hv, _⟩ := strVal_cons d JValue.vnull
      rw [hv]; simp [jsize]
    | vbool b =>
      obtain ⟨c, cs, hv, _⟩ := strVal_cons d (JValue.vbool b)
      rw [hv]; simp [jsize]
    | vnum m =>
      obtain ⟨c, cs, hv, _⟩ := strVal_cons d (JValue.vnum m)
      rw [hv]; simp [jsize]
    | vstr s =>
      obtain ⟨c, cs, hv, _⟩ := strVal_cons d (JValue.vstr s)
      rw [hv]; simp [jsize]

/-! ## Parser steps at each leading character -/

theorem startOk_elim {c : Char} (h : startOk c = true) :
    isWsChar c = false ∧ c ≠ ']' ∧ c ≠ '}' ∧ c ≠ ',' := by
  have h2 : ((isWsChar c = false ∧ ¬c = ']') ∧ ¬c = '}') ∧ ¬c = ',' := by
    simpa [startOk] using h
  exact ⟨h2.1.1.1, h2.1.1.2, h2.1.2, h2.2⟩

theorem pVal_null (f : Nat) (t : List Char) :
    pVal (f + 1) ('n' :: 'u' :: 'l' :: 'l' :: t) = some (.vnull, t) := by
  rw [pVal.eq_2]; simp [skipWs, isWsChar]

theorem pVal_true (f : Nat) (t : List Char) :
    pVal (f + 1) ('t' :: 'r' :: 'u' :: 'e' :: t) = some (.vbool true, t) := by
  rw [pVal.eq_2]; simp [skipWs, isWsChar]

theorem pVal_false (f : Nat) (t : List Char) :
    pVal (f + 1) ('f' :: 'a' :: 'l' :: 's' :: 'e' :: t) = some (.vbool false, t) := by
  rw [pVal.eq_2]; simp [skipWs, isWsChar]

theorem pVal_digit (f : Nat) {c : Char} (hc : c.isDigit = true) (t : List Char) :
    pVal (f + 1) (c :: t) =
      some (.vnum (Int.ofNat (pNat (digitVal c) t).1), (pNat (digitVal c) t).2) := by
  have hws : isWsChar c = false := (startOk_elim (startOk_of_isDigit hc)).1
  rw [pVal.eq_2, skipWs_cons_not_ws hws]
  rcases hpn : pNat (digitVal c) t with ⟨n, r⟩
  simp [hc, hpn]

theorem pVal_minus (f : Nat) {c2 : Char} (hc2 : c2.isDigit = true) (t : List Char) :
    pVal (f + 1) ('-' :: c2 :: t) =
      some (.vnum (-(Int.ofNat (pNat (digitVal c2) t).1)), (pNat (digitVal c2) t).2) := by
  rw [pVal.eq_2, skipWs_cons_not_ws (by decide)]
  rcases hpn : pNat (digitVal c2) t with ⟨n, r⟩
  simp [hc2, hpn]

theorem pVal_quote (f : Nat) (t : List Char) :
    pVal (f + 1) ('"' :: t) =
      (pStringBody t).map (fun p => (.vstr (String.mk p.1), p.2)) := by
  rw [pVal.eq_2, skipWs_cons_not_ws (by decide)]
  simp

theorem pVal_arr (f : Nat) (t : List Char) :
    pVal (f + 1) ('[' :: t) =
      (match skipWs t with
       | c2 :: r2 =>
           if c2 = ']' then some (.varr [], r2)
           else
             match pVal f t with
             | some (x, r) => pArrTail f [x] r
             | none => none
       | [] => none) := by
  rw [pVal.eq_2, skipWs_cons_not_ws (by decide)]
  simp

theorem pVal_obj (f : Nat) (t : List Char) :
    pVal (f + 1) ('{' :: t) =
      (match skipWs t with
       | c2 :: r2 =>
           if c2 = '}' then some (.vobj [], r2)
           else
             match pMember f t with
             | some (kv, r) => pObjTail f [kv] r
             | none => none
       | [] => none) := by
  rw [pVal.eq_2, skipWs_cons_not_ws (by decide)]
  simp

theorem pArrTail_comma (f : Nat) (acc : List JValue) (t : List Char) :
    pArrTail (f + 1) acc (',' :: t) =
      (match pVal f t with
       | some (x, r) => pArrTail f (acc ++ [x]) r
       | none => none) := by
  rw [pArrTail.eq_2, skipWs_cons_not_ws (by decide)]
  simp

theorem pArrTail_close (f : Nat) (acc : List JValue) (t : List Char) :
    pArrTail (f + 1) acc (']' :: t) = some (.varr acc, t) := by
  rw [pArrTail.eq_2, skipWs_cons_not_ws (by decide)]
  simp

theorem pObjTail_comma (f : Nat) (acc : List (String × JValue)) (t : List Char) :
    pObjTail (f + 1) acc (',' :: t) =
      (match pMember f t with
       | some (kv, r) => pObjTail f (acc ++ [kv]) r
       | none => none) := by
  rw [pObjTail.eq_2, skipWs_cons_not_ws (by decide)]
  simp

theorem pObjTail_close (f : Nat) (acc : List (String × JValue)) (t : List Char) :
    pObjTail (f + 1) acc ('}' :: t) = some (.vobj acc, t) := by
  rw [pObjTail.eq_2, skipWs_cons_not_ws (by decide)]
  simp

theorem pMember_quote (f : Nat) (t : List Char) :
    pMember (f + 1) ('"' :: t) =
      (match pStringBody t with
       | some (k, r2) =>
           (match skipWs r2 with
            | c2 :: r3 =>
                if c2 = ':' then
                  (pVal f r3).map (fun p => ((String.mk k, p.1), p.2))
                else none
            | [] => none)
       | none => none) := by
  rw [pMember.eq_2, skipWs_cons_not_ws (by decide)]
  simp

/-- The character after a serialized collection entry begins with a comma or
a newline, never a digit. -/
theorem delimB_sep_close (d : Nat) (L : List (List Char)) (c : Char) (rest : List Char) :
    delimB (sepEntries d L ++ '\n' :: (indentChars d ++ c :: rest)) = true := by
  cases L with
  | nil => simp [sepEntries, delimB]
  | cons e es => simp [sepEntries, delimB]

/-! ## The serializer/parser round trip -/

theorem parse_rt :
    ∀ fuel : Nat,
      (∀ v d rest, noUndefined v = true → jsize v ≤ fuel → delimB rest = true →
        pVal fuel (strVal d v ++ rest) = some (v, rest)) ∧
      (∀ xs acc d rest, noUndefinedL xs = true → jsizeL xs + 1 ≤ fuel →
        pArrTail fuel acc
          (sepEntries d (strItemList d xs) ++ '\n' :: (indentChars d ++ ']' :: rest)) =
          some (.varr (acc ++ xs), rest)) ∧
      (∀ fs acc d rest, noUndefinedF fs = true → jsizeF fs + 1 ≤ fuel →
        pObjTail fuel acc
          (sepEntries d (fs.map (fun p => escString p.1 ++ ':' :: ' ' :: strVal (d + 1) p.2))
            ++ '\n' :: (indentChars d ++ '}' :: rest)) =
          some (.vobj (acc ++ fs), rest)) ∧
      (∀ (k : String) v d rest, noUndefined v = true → jsize v + 1 ≤ fuel → delimB rest = true →
        pMember fuel (escString k ++ ':' :: ' ' :: (strVal (d + 1) v ++ rest)) =
          some ((k, v), rest)) := by
  intro fuel
  induction fuel using Nat.strong_induction_on with
  | _ fuel ih =>
    refine ⟨?_, ?_, ?_, ?_⟩
    · -- values
      intro v d rest hu hsz hrest
      obtain ⟨f, rfl⟩ : ∃ f, fuel = f + 1 := ⟨fuel - 1, by have := jsize_pos v; omega⟩
      cases v with
      | vundefined => exact absurd hu (by simp [noUndefined])
      | vnull =>
        rw [show strVal d JValue.vnull ++ rest = 'n' :: 'u' :: 'l' :: 'l' :: rest from by
          simp [strVal]]
        exact pVal_null f rest
      | vbool b =>
        cases b with
        | true =>
          rw [show strVal d (JValue.vbool true) ++ rest = 't' :: 'r' :: 'u' :: 'e' :: rest from by
            simp [strVal]]
          exact pVal_true f rest
        | false =>
          rw [show strVal d (JValue.vbool false) ++ rest =
              'f' :: 'a' :: 'l' :: 's' :: 'e' :: rest from by simp [strVal]]
          exact pVal_false f rest
      | vnum n =>
        cases n with
        | ofNat m =>
          obtain ⟨c, ds, hds, hdig, hp⟩ := pNat_natDigits m rest hrest
          rw [show strVal d (JValue.vnum (Int.ofNat m)) ++ rest = c :: (ds ++ rest) from by
            simp [strVal, intDigits, hds]]
          rw [pVal_digit f hdig, hp]
        | negSucc m =>
          obtain ⟨c, ds, hds, hdig, hp⟩ := pNat_natDigits (m + 1) rest hrest
          rw [show strVal d (JValue.vnum (Int.negSucc m)) ++ rest = '-' :: c :: (ds ++ rest) from by
            simp [strVal, intDigits, hds]]
          rw [pVal_minus f hdig, hp]
          norm_num [Int.negSucc_eq]
      | vstr s =>
        rw [show strVal d (JValue.vstr s) ++ rest =
            '"' :: ((s.data.map escChar).flatten ++ '"' :: rest) from by
          simp [strVal, escString]]
        rw [pVal_quote, pStringBody_rt]
        rfl
      | varr xs =>
        cases xs with
        | nil =>
          rw [show strVal d (JValue.varr []) ++ rest = '[' :: ']' :: rest from by
            simp [strVal, strItemList, joinEntries]]
          rw [pVal_arr, skipWs_cons_not_ws (by decide)]
          simp
        | cons x xs =>
          have hux : noUndefined x = true := by
            have := hu; simp [noUndefined, noUndefinedL, Bool.and_eq_true] at this; exact this.1
          have huxs : noUndefinedL xs = true := by
            have := hu; simp [noUndefined, noUndefinedL, Bool.and_eq_true] at this; exact this.2
          have hsz' : jsize x + jsizeL xs + 2 ≤ f + 1 := by
            have := hsz; simp [jsize, jsizeL] at this; omega
          have hposx := jsize_pos x
          obtain ⟨g, rfl⟩ : ∃ g, f = g + 1 := ⟨f - 1, by omega⟩
          rw [show strVal d (JValue.varr (x :: xs)) ++ rest =
              '[' :: '\n' :: (indentChars (d + 1) ++ (strVal (d + 1) x ++
                (sepEntries d (strItemList d xs) ++
                  '\n' :: (indentChars d ++ ']' :: rest)))) from by
            simp [strVal, strItemList, joinEntries]]
          obtain ⟨cx, csx, hx, hokx⟩ := strVal_cons (d + 1) x
          have hws := startOk_elim hokx
          rw [pVal_arr]
          simp only [show skipWs ('\n' :: (indentChars (d + 1) ++ (strVal (d + 1) x ++
              (sepEntries d (strItemList d xs) ++ '\n' :: (indentChars d ++ ']' :: rest)))))
              = cx :: (csx ++ (sepEntries d (strItemList d xs) ++
                  '\n' :: (indentChars d ++ ']' :: rest))) from by
            rw [skipWs_newline, skipWs_indent, hx, List.cons_append,
              skipWs_cons_not_ws hws.1]]
          rw [if_neg hws.2.1]
          rw [pVal_ws g (show skipWs ('\n' :: (indentChars (d + 1) ++ (strVal (d + 1) x ++
              (sepEntries d (strItemList d xs) ++ '\n' :: (indentChars d ++ ']' :: rest)))))
              = skipWs (strVal (d + 1) x ++
                (sepEntries d (strItemList d xs) ++ '\n' :: (indentChars d ++ ']' :: rest)))
              from by rw [skipWs_newline, skipWs_indent])]
          have hIH1 := (ih (g + 1) (by omega)).1 x (d + 1)
            (sepEntries d (strItemList d xs) ++ '\n' :: (indentChars d ++ ']' :: rest))
            hux (by omega) (delimB_sep_close d _ ']' rest)
          simp only [hIH1]
          have hIH2 := (ih (g + 1) (by omega)).2.1 xs [x] d rest huxs (by omega)
          simpa using hIH2
      | vobj fs =>
        have hufs : noUndefinedF fs = true := by simpa [noUndefined] using hu
        cases fs with
        | nil =>
          rw [show strVal d (JValue.vobj []) ++ rest = '{' :: '}' :: rest from by
            simp [strVal, strEntryList, joinEntries]]
          rw [pVal_obj, skipWs_cons_not_ws (by decide)]
          simp
        | cons p fs =>
          rcases p with ⟨k, v0⟩
          have huv : noUndefined v0 = true := by
            have := hufs; simp [noUndefinedF, Bool.and_eq_true] at this; exact this.1
          have hufs' : noUndefinedF fs = true := by
            have := hufs; simp [noUndefinedF, Bool.and_eq_true] at this; exact this.2
          have hsz' : jsize v0 + jsizeF fs + 2 ≤ f + 1 := by
            have := hsz; simp [jsize, jsizeF] at this; omega
          have hposv := jsize_pos v0
          obtain ⟨g, rfl⟩ : ∃ g, f = g + 1 := ⟨f - 1, by omega⟩
          rw [show strVal d (JValue.vobj ((k, v0) :: fs)) ++ rest =
              '{' :: '\n' :: (indentChars (d + 1) ++
                ((escString k ++ ':' :: ' ' :: (strVal (d + 1) v0 ++
                  (sepEntries d (fs.map
                      (fun p => escString p.1 ++ ':' :: ' ' :: strVal (d + 1) p.2)) ++
                    '\n' :: (indentChars d ++ '}' :: rest))))))  from by
            rw [show strVal d (JValue.vobj ((k, v0) :: fs))
                = joinEntries d '{' '}' (strEntryList d ((k, v0) :: fs)) from by simp [strVal]]
            rw [strEntryList_noUndefined d _ hufs]
            simp [joinEntries]]
          rw [pVal_obj]
          simp only [show skipWs ('\n' :: (indentChars (d + 1) ++
              ((escString k ++ ':' :: ' ' :: (strVal (d + 1) v0 ++
                (sepEntries d (fs.map
                    (fun p => escString p.1 ++ ':' :: ' ' :: strVal (d + 1) p.2)) ++
                  '\n' :: (indentChars d ++ '}' :: rest)))))))
              = '"' :: (((k.data.map escChar).flatten ++ ['"']) ++
                  (':' :: ' ' :: (strVal (d + 1) v0 ++
                    (sepEntries d (fs.map
                        (fun p => escString p.1 ++ ':' :: ' ' :: strVal (d + 1) p.2)) ++
                      '\n' :: (indentChars d ++ '}' :: rest))))) from by
            rw [skipWs_newline, skipWs_indent]
            simp only [escString, List.cons_append, List.append_assoc]
            rw [skipWs_cons_not_ws (by decide)]]
          rw [if_neg (by decide : ¬('"' = '}'))]
          rw [pMember_ws g (show skipWs ('\n' :: (indentChars (d + 1) ++
              ((escString k ++ ':' :: ' ' :: (strVal (d + 1) v0 ++
                (sepEntries d (fs.map
                    (fun p => escString p.1 ++ ':' :: ' ' :: strVal (d + 1) p.2)) ++
                  '\n' :: (indentChars d ++ '}' :: rest)))))))
              = skipWs (escString k ++ ':' :: ' ' :: (strVal (d + 1) v0 ++
                (sepEntries d (fs.map
                    (fun p => escString p.1 ++ ':' :: ' ' :: strVal (d + 1) p.2)) ++
                  '\n' :: (indentChars d ++ '}' :: rest))))
              from by rw [skipWs_newline, skipWs_indent])]
          have hIH4 := (ih (g + 1) (by omega)).2.2.2 k v0 d
            (sepEntries d (fs.map
                (fun p => escString p.1 ++ ':' :: ' ' :: strVal (d + 1) p.2)) ++
              '\n' :: (indentChars d ++ '}' :: rest))
            huv (by omega) (delimB_sep_close d _ '}' rest)
          simp only [hIH4]
          have hIH3 := (ih (g + 1) (by omega)).2.2.1 fs [(k, v0)] d rest hufs' (by omega)
          simpa using hIH3
    · -- array tails
      intro xs acc d rest huxs hsz
      obtain ⟨f, rfl⟩ : ∃ f, fuel = f + 1 := ⟨fuel - 1, by omega⟩
      cases xs with
      | nil =>
        rw [show sepEntries d (strItemList d []) ++ '\n' :: (indentChars d ++ ']' :: rest)
            = '\n' :: (indentChars d ++ ']' :: rest) from by simp [strItemList, sepEntries]]
        rw [pArrTail_ws f acc (show skipWs ('\n' :: (indentChars d ++ ']' :: rest))
            = skipWs (']' :: rest) from by rw [skipWs_newline, skipWs_indent])]
        rw [pArrTail_close]
        simp
      | cons x xs =>
        have hux : noUndefined x = true := by
          have := huxs; simp [noUndefinedL, Bool.and_eq_true] at this; exact this.1
        have huxs' : noUndefinedL xs = true := by
          have := huxs; simp [noUndefinedL, Bool.and_eq_true] at this; exact this.2
        have hsz' : jsize x + jsizeL xs + 2 ≤ f + 1 := by
          have := hsz; simp [jsizeL] at this; omega
        have hposx := jsize_pos x
        obtain ⟨g, rfl⟩ : ∃ g, f = g + 1 := ⟨f - 1, by omega⟩
        rw [show sepEntries d (strItemList d (x :: xs)) ++
            '\n' :: (indentChars d ++ ']' :: rest)
            = ',' :: '\n' :: (indentChars (d + 1) ++ (strVal (d + 1) x ++
                (sepEntries d (strItemList d xs) ++
                  '\n' :: (indentChars d ++ ']' :: rest)))) from by
          simp [strItemList, sepEntries]]
        rw [pArrTail_comma]
        rw [pVal_ws g (show skipWs ('\n' :: (indentChars (d + 1) ++ (strVal (d + 1) x ++
            (sepEntries d (strItemList d xs) ++ '\n' :: (indentChars d ++ ']' :: rest)))))
            = skipWs (strVal (d + 1) x ++
              (sepEntries d (strItemList d xs) ++ '\n' :: (indentChars d ++ ']' :: rest)))
            from by rw [skipWs_newline, skipWs_indent])]
        have hIH1 := (ih (g + 1) (by omega)).1 x (d + 1)
          (sepEntries d (strItemList d xs) ++ '\n' :: (indentChars d ++ ']' :: rest))
          hux (by omega) (delimB_sep_close d _ ']' rest)
        simp only [hIH1]
        have hIH2 := (ih (g + 1) (by omega)).2.1 xs (acc ++ [x]) d rest huxs' (by omega)
        simpa using hIH2
    · -- object tails
      intro fs acc d rest hufs hsz
      obtain ⟨f, rfl⟩ : ∃ f, fuel = f + 1 := ⟨fuel - 1, by omega⟩
      cases fs with
      | nil =>
        simp only [List.map_nil]
        rw [show sepEntries d ([] : List (List Char)) ++
              '\n' :: (indentChars d ++ '}' :: rest)
            = '\n' :: (indentChars d ++ '}' :: rest) from by simp [sepEntries]]
        rw [pObjTail_ws f acc (show skipWs ('\n' :: (indentChars d ++ '}' :: rest))
            = skipWs ('}' :: rest) from by rw [skipWs_newline, skipWs_indent])]
        rw [pObjTail_close]
        simp
      | cons p fs =>
        rcases p with ⟨k, v0⟩
        have huv : noUndefined v0 = true := by
          have := hufs; simp [noUndefinedF, Bool.and_eq_true] at this; exact this.1
        have hufs' : noUndefinedF fs = true := by
          have := hufs; simp [noUndefinedF, Bool.and_eq_true] at this; exact this.2
        have hsz' : jsize v0 + jsizeF fs + 2 ≤ f + 1 := by
          have := hsz; simp [jsizeF] at this; omega
        have hposv := jsize_pos v0
        obtain ⟨g, rfl⟩ : ∃ g, f = g + 1 := ⟨f - 1, by omega⟩
        rw [show sepEntries d (List.map
              (fun p => escString p.1 ++ ':' :: ' ' :: strVal (d + 1) p.2) ((k, v0) :: fs)) ++
              '\n' :: (indentChars d ++ '}' :: rest)
            = ',' :: '\n' :: (indentChars (d + 1) ++
                (escString k ++ ':' :: ' ' :: (strVal (d + 1) v0 ++
                  (sepEntries d (fs.map
                      (fun p => escString p.1 ++ ':' :: ' ' :: strVal (d + 1) p.2)) ++
                    '\n' :: (indentChars d ++ '}' :: rest))))) from by
          simp [sepEntries]]
        rw [pObjTail_comma]
        rw [pMember_ws g (show skipWs ('\n' :: (indentChars (d + 1) ++
            (escString k ++ ':' :: ' ' :: (strVal (d + 1) v0 ++
              (sepEntries d (fs.map
                  (fun p => escString p.1 ++ ':' :: ' ' :: strVal (d + 1) p.2)) ++
                '\n' :: (indentChars d ++ '}' :: rest))))))
            = skipWs (escString k ++ ':' :: ' ' :: (strVal (d + 1) v0 ++
              (sepEntries d (fs.map
                  (fun p => escString p.1 ++ ':' :: ' ' :: strVal (d + 1) p.2)) ++
                '\n' :: (indentChars d ++ '}' :: rest))))
            from by rw [skipWs_newline, skipWs_indent])]
        have hIH4 := (ih (g + 1) (by omega)).2.2.2 k v0 d
          (sepEntries d (fs.map
              (fun p => escString p.1 ++ ':' :: ' ' :: strVal (d + 1) p.2)) ++
            '\n' :: (indentChars d ++ '}' :: rest))
          huv (by omega) (delimB_sep_close d _ '}' rest)
        simp only [hIH4]
        have hIH3 := (ih (g + 1) (by omega)).2.2.1 fs (acc ++ [(k, v0)]) d rest hufs' (by omega)
        simpa using hIH3
    · -- members
      intro k v d rest huv hsz hrest
      obtain ⟨f, rfl⟩ : ∃ f, fuel = f + 1 := ⟨fuel - 1, by omega⟩
      have hposv := jsize_pos v
      obtain ⟨g, rfl⟩ : ∃ g, f = g + 1 := ⟨f - 1, by omega⟩
      rw [show escString k ++ ':' :: ' ' :: (strVal (d + 1) v ++ rest)
          = '"' :: ((k.data.map escChar).flatten ++
              '"' :: (':' :: ' ' :: (strVal (d + 1) v ++ rest))) from by
        simp [escString]]
      rw [pMember_quote]
      simp only [pStringBody_rt]
      simp only [show skipWs (':' :: ' ' :: (strVal (d + 1) v ++ rest))
          = ':' :: ' ' :: (strVal (d + 1) v ++ rest) from
        skipWs_cons_not_ws (by decide) _]
      simp only [if_true]
      rw [pVal_ws g (show skipWs (' ' :: (strVal (d + 1) v ++ rest))
          = skipWs (strVal (d + 1) v ++ rest) from skipWs_cons_ws (by decide) _)]
      have hIH1 := (ih (g + 1) (by omega)).1 v (d + 1) rest huv (by omega) hrest
      simp only [hIH1]
      rfl

/-- Parsing the pretty-printed serialization of a JSON-serializable value
recovers the value exactly. -/
theorem jsonParse_jsonStringify (v : JValue) (hu : noUndefined v = true) :
    jsonParse (jsonStringify v) = some v := by
  have hfuel : jsize v ≤ (strVal 0 v).length + 1 :=
    le_trans (jsize_le_strVal_len (jsize v) v 0 le_rfl hu) (by omega)
  have h1 := (parse_rt ((strVal 0 v).length + 1)).1 v 0 [] hu hfuel (by simp [delimB])
  rw [List.append_nil] at h1
  show (match pVal ((strVal 0 v).length + 1) (strVal 0 v) with
    | some (w, rest) => if skipWs rest = [] then some w else none
    | none => none) = some v
  rw [h1]
  simp [skipWs]

end Lemmas

section Claims

/-- C1: the departures validator contradicts the catalog's declared
`oneOf` contract: a bag carrying only `uicCode` (a correctly typed string)
satisfies the declared either-or requirement and is accepted by the
arrivals validator, but `isValidDeparturesArgs` rejects it because it
demands `station` to be a string and never inspects `uicCode`; a bag with
only `station` is accepted by both, and an empty bag is rejected by both. -/
theorem c1_departures_uicCode_bug :
    declaredEitherStationOrUic (.vobj [("uicCode", .vstr "8400058")]) = true ∧
    isValidDeparturesArgs (.vobj [("uicCode", .vstr "8400058")]) = false ∧
    isValidArrivalsArgs (.vobj [("uicCode", .vstr "8400058")]) = true ∧
    isValidDeparturesArgs (.vobj [("station", .vstr "ASD")]) = true ∧
    isValidArrivalsArgs (.vobj [("station", .vstr "ASD")]) = true ∧
    isValidDeparturesArgs (.vobj []) = false ∧
    isValidArrivalsArgs (.vobj []) = false := by
  decide

/-- C2: the catalog declares `maxJourneys` bounds 1..100 for
`get_departures`, and the arrivals validator enforces them (0 and 101
rejected, 1 and 100 accepted), but `isValidDeparturesArgs` only checks that
`maxJourneys` is a number and accepts 0 and 101. -/
theorem c2_departures_maxJourneys_bug :
    declaredMaxJourneysOk (.vobj [("station", .vstr "ASD"), ("maxJourneys", .vnum 0)]) = false ∧
    declaredMaxJourneysOk (.vobj [("station", .vstr "ASD"), ("maxJourneys", .vnum 101)]) = false ∧
    isValidDeparturesArgs (.vobj [("station", .vstr "ASD"), ("maxJourneys", .vnum 0)]) = true ∧
    isValidDeparturesArgs (.vobj [("station", .vstr "ASD"), ("maxJourneys", .vnum 101)]) = true ∧
    isValidDeparturesArgs (.vobj [("station", .vstr "ASD"), ("maxJourneys", .vnum 1)]) = true ∧
    isValidDeparturesArgs (.vobj [("station", .vstr "ASD"), ("maxJourneys", .vnum 100)]) = true ∧
    isValidArrivalsArgs (.vobj [("station", .vstr "ASD"), ("maxJourneys", .vnum 0)]) = false ∧
    isValidArrivalsArgs (.vobj [("station", .vstr "ASD"), ("maxJourneys", .vnum 101)]) = false ∧
    isValidArrivalsArgs (.vobj [("station", .vstr "ASD"), ("maxJourneys", .vnum 1)]) = true ∧
    isValidArrivalsArgs (.vobj [("station", .vstr "ASD"), ("maxJourneys", .vnum 100)]) = true := by
  decide

/-- C3 counterexample: dispatching `get_disruptions` with an empty argument
bag through the evolved pipeline sends an upstream query with no parameters
at all — in particular no `isActive=true` entry, contradicting the claim
that the dispatcher supplies the documented default. -/
theorem c3_counterexample :
    (disruptionsRequest (.vobj [])).params.lookup "isActive" = none ∧
    (disruptionsRequest (.vobj [])).params = [] :=
  ⟨rfl, rfl⟩

/-- C3 amended: the evolved dispatcher forwards the empty bag unchanged, so
the effective disruptions query is empty and the upstream server default
applies; only the legacy single-file dispatcher draft (`src/index.ts`)
injects `isActive: true` before its upstream call. -/
theorem c3_amended_disruptions_default
    (upstream : UpstreamReq → Except JsError JValue) (now : String) :
    dispatchData upstream now "get_disruptions" (.vobj []) =
      upstream { path := "/disruptions/v3", params := [] } ∧
    (legacyDisruptionsRequest (.vobj [])).params = [("isActive", .vbool true)] := by
  exact ⟨rfl, rfl⟩

/-- C4 counterexample: `isValidDisruptionsArgs` accepts the empty array
(`typeof [] === "object"` and every field of the tool is optional), so
arrays are not rejected as the claim states. -/
theorem c4_counterexample : isValidDisruptionsArgs (.varr []) = true := by
  decide

/-- C4 amended: every tool validator rejects `null`, `undefined` and
primitive inputs, and all are total except `isValidStationInfoArgs`, which
throws exactly on `null` (it checks `typeof args === 'object'`, which
`null` passes, before accessing `args.query`).  Arrays pass the
typeof-object test: `isValidDisruptionsArgs` accepts every-field-optional
array input such as `[]`, while the other validators reject `[]` only
because its required fields are missing. -/
theorem c4_amended_validator_totality :
    (∀ (b : Bool) (n : Int) (s : String),
      isValidDisruptionsArgs .vnull = false ∧ isValidDisruptionsArgs .vundefined = false ∧
      isValidDisruptionsArgs (.vbool b) = false ∧ isValidDisruptionsArgs (.vnum n) = false ∧
      isValidDisruptionsArgs (.vstr s) = false ∧
      isValidTravelAdviceArgs .vnull = false ∧ isValidTravelAdviceArgs .vundefined = false ∧
      isValidTravelAdviceArgs (.vbool b) = false ∧ isValidTravelAdviceArgs (.vnum n) = false ∧
      isValidTravelAdviceArgs (.vstr s) = false ∧
      isValidDeparturesArgs .vnull = false ∧ isValidDeparturesArgs .vundefined = false ∧
      isValidDeparturesArgs (.vbool b) = false ∧ isValidDeparturesArgs (.vnum n) = false ∧
      isValidDeparturesArgs (.vstr s) = false ∧
      isValidOVFietsArgs .vnull = false ∧ isValidOVFietsArgs .vundefined = false ∧
      isValidOVFietsArgs (.vbool b) = false ∧ isValidOVFietsArgs (.vnum n) = false ∧
      isValidOVFietsArgs (.vstr s) = false ∧
      isValidArrivalsArgs .vnull = false ∧ isValidArrivalsArgs .vundefined = false ∧
      isValidArrivalsArgs (.vbool b) = false ∧ isValidArrivalsArgs (.vnum n) = false ∧
      isValidArrivalsArgs (.vstr s) = false ∧
      isValidStationInfoArgs .vundefined = .ok false ∧
      isValidStationInfoArgs (.vbool b) = .ok false ∧
      isValidStationInfoArgs (.vnum n) = .ok false ∧
      isValidStationInfoArgs (.vstr s) = .ok false) ∧
    (∀ v : JValue, isValidStationInfoArgs v = .error () ↔ v = .vnull) ∧
    isValidDisruptionsArgs (.varr []) = true ∧
    isValidTravelAdviceArgs (.varr []) = false ∧
    isValidDeparturesArgs (.varr []) = false ∧
    isValidOVFietsArgs (.varr []) = false ∧
    isValidArrivalsArgs (.varr []) = false ∧
    isValidStationInfoArgs (.varr []) = .ok false := by
  refine ⟨?_, ?_, by decide, by decide, by decide, by decide, by decide, by rfl⟩
  · intro b n s
    cases b <;>
      simp [isValidDisruptionsArgs, isValidTravelAdviceArgs, isValidDeparturesArgs,
        isValidOVFietsArgs, isValidArrivalsArgs, isValidStationInfoArgs,
        jsTruthy, jsTypeof, getField, getFieldE, bind, Except.bind]
  · intro v
    cases v <;>
      simp [isValidStationInfoArgs, jsTypeof, getField, getFieldE, bind, Except.bind]

/-- C5: for every tool name and argument bag, and every behavior of the
upstream collaborator, the evolved call-tool handler returns either
`formatSuccess` of some payload or an envelope with `isError = true`; every
thrown failure is caught at the dispatch boundary and reshaped by
`formatError`, so no exception escapes `callTool`. -/
theorem c5_dispatch_total (upstream : UpstreamReq → Except JsError JValue)
    (now name : String) (rawArguments : JValue) :
    (∃ data, callTool upstream now name rawArguments = formatSuccess data) ∨
      (callTool upstream now name rawArguments).isError = true := by
  unfold callTool
  cases h : dispatchData upstream now name rawArguments with
  | ok data => exact Or.inl ⟨data, rfl⟩
  | error e =>
    right
    cases e <;> rfl

/-- C6 counterexample: in the evolved dispatcher no normalization precedes
validation, so calling `get_disruptions` with `isActive` as the string
`"true"` is rejected (`isError = true`) rather than passing validation. -/
theorem c6_counterexample :
    (callTool (fun _ => .ok .vnull) "2024-01-01T00:00:00.000Z" "get_disruptions"
      (.vobj [("isActive", .vstr "true")])).isError = true := by
  rfl

/-- C6 amended: the case-insensitive string-to-boolean normalization of
`isActive` exists only in the legacy single-file dispatcher draft
(`src/index.ts`): there, a present `isActive` is replaced by
`String(value).toLowerCase() === 'true'` before the validator runs, so both
`"true"` and `"TRUE"` pass validation normalized to `true`, and the shaped
value reaches the upstream query; no other argument is normalized that way
(the legacy travel-advice shaping maps a string `"true"` for
`searchForArrival` to `false` via strict `=== true`).  The evolved
dispatcher validates the raw bag directly and rejects a string `isActive`. -/
theorem c6_amended_legacy_normalization :
    getField (legacyShapedDisruptionsArgs (.vobj [("isActive", .vstr "true")])) "isActive"
      = .vbool true ∧
    isValidDisruptionsArgs (legacyShapedDisruptionsArgs (.vobj [("isActive", .vstr "true")]))
      = true ∧
    getField (legacyShapedDisruptionsArgs (.vobj [("isActive", .vstr "TRUE")])) "isActive"
      = .vbool true ∧
    isValidDisruptionsArgs (legacyShapedDisruptionsArgs (.vobj [("isActive", .vstr "TRUE")]))
      = true ∧
    isValidDisruptionsArgs (.vobj [("isActive", .vstr "true")]) = false ∧
    (legacyDisruptionsRequest (.vobj [("isActive", .vstr "true")])).params.lookup "isActive"
      = some (.vbool true) ∧
    getField (legacyShapedTravelAdviceArgs (.vobj [("searchForArrival", .vstr "true")]))
      "searchForArrival" = .vbool false := by
  exact ⟨rfl, rfl, rfl, rfl, rfl, rfl, rfl⟩

/-- C7: `formatSuccess` wraps any JSON-serializable payload in an envelope
whose single content item has type `"text"` and whose text is the
deterministic two-space-indented `JSON.stringify` serialization; parsing
that text as JSON recovers a value deep-equal to the payload. -/
theorem c7_formatSuccess_roundtrip (x : JValue) (hx : noUndefined x = true) :
    (formatSuccess x).isError = false ∧
    (formatSuccess x).content = [{ type := "text", text := jsonStringify x }] ∧
    jsonParse (jsonStringify x) = some x :=
  ⟨rfl, rfl, jsonParse_jsonStringify x hx⟩

/-- C7 witness: the round trip at a concrete nested unicode payload. -/
theorem c7_formatSuccess_roundtrip_witness :
    noUndefined (JValue.vobj [("a", .varr [.vnum 1, .vstr "héllo\n\"q\""]),
      ("b", .vnull), ("c", .vnum (-42))]) = true ∧
    ((formatSuccess (JValue.vobj [("a", .varr [.vnum 1, .vstr "héllo\n\"q\""]),
        ("b", .vnull), ("c", .vnum (-42))])).isError = false ∧
      (formatSuccess (JValue.vobj [("a", .varr [.vnum 1, .vstr "héllo\n\"q\""]),
        ("b", .vnull), ("c", .vnum (-42))])).content =
        [{ type := "text", text := jsonStringify (JValue.vobj
          [("a", .varr [.vnum 1, .vstr "héllo\n\"q\""]),
           ("b", .vnull), ("c", .vnum (-42))]) }] ∧
      jsonParse (jsonStringify (JValue.vobj [("a", .varr [.vnum 1, .vstr "héllo\n\"q\""]),
        ("b", .vnull), ("c", .vnum (-42))])) =
        some (JValue.vobj [("a", .varr [.vnum 1, .vstr "héllo\n\"q\""]),
          ("b", .vnull), ("c", .vnum (-42))])) :=
  ⟨by decide, c7_formatSuccess_roundtrip _ (by decide)⟩

/-- C8: `get_station_info` validation rejects `limit: 51` and accepts
`limit: 50` with a valid query, and when `limit` is absent the upstream
stations query carries `limit = 10` (the `?? 10` default in
`getStationInfo`). -/
theorem c8_station_info_limit :
    isValidStationInfoArgs (.vobj [("query", .vstr "Amsterdam"), ("limit", .vnum 51)])
      = .ok false ∧
    isValidStationInfoArgs (.vobj [("query", .vstr "Amsterdam"), ("limit", .vnum 50)])
      = .ok true ∧
    (∀ args : JValue, getField args "limit" = .vundefined →
      (stationInfoRequest args).params.lookup "limit" = some (.vnum 10)) := by
  refine ⟨by rfl, by rfl, ?_⟩
  intro args h
  unfold stationInfoRequest dropAbsent
  rw [h]
  cases hq : getField args "query" <;>
    cases hi : getField args "includeNonPlannableStations" <;>
      simp [nullish, List.filter, List.lookup, beqJ]

/-- C8 witness: omitting `limit` on a concrete bag yields `limit = 10`. -/
theorem c8_station_info_limit_witness :
    getField (.vobj [("query", .vstr "Amsterdam")]) "limit" = .vundefined ∧
    (stationInfoRequest (.vobj [("query", .vstr "Amsterdam")])).params.lookup "limit"
      = some (.vnum 10) :=
  ⟨rfl, c8_station_info_limit.2.2 _ rfl⟩

/-- C9: dispatching any tool name outside the static catalog returns an
error envelope whose text is exactly `"Unknown tool: "` followed by the
offending name, for every argument bag, every upstream behavior and every
current time — the arguments have no effect on the outcome. -/
theorem c9_unknown_tool (upstream : UpstreamReq → Except JsError JValue)
    (now name : String) (rawArguments : JValue) (h : name ∉ toolNames) :
    callTool upstream now name rawArguments =
      { isError := true
        content := [{ type := "text", text := "Unknown tool: " ++ name }] } := by
  simp only [toolNames, List.mem_cons, List.not_mem_nil, or_false, not_or] at h
  obtain ⟨h1, h2, h3, h4, h5, h6, h7⟩ := h
  unfold callTool dispatchData
  simp only [h1, h2, h3, h4, h5, h6, h7, if_false]
  rfl

/-- C9 witness: the unknown tool `"get_unicorn"`. -/
theorem c9_unknown_tool_witness :
    callTool (fun _ => .ok .vnull) "2024-01-01T00:00:00.000Z" "get_unicorn" (.vobj []) =
      { isError := true
        content := [{ type := "text", text := "Unknown tool: get_unicorn" }] } :=
  c9_unknown_tool _ _ _ _ (by decide)

/-- C10: the arrivals validator's either-or check is a truthiness test, so
an empty-string `station` (with `uicCode` absent, or also empty) fails
validation even though it is a correctly typed string, while an empty
`station` together with a non-empty `uicCode` passes. -/
theorem c10_arrivals_empty_string_truthiness :
    isValidArrivalsArgs (.vobj [("station", .vstr "")]) = false ∧
    isValidArrivalsArgs (.vobj [("station", .vstr ""), ("uicCode", .vstr "")]) = false ∧
    isValidArrivalsArgs (.vobj [("station", .vstr ""), ("uicCode", .vstr "8400058")]) = true := by
  decide

end Claims

end NS
